import Mathlib

/-!
Shallow embedding of the go-roundrobin ring-queue module.

Conventions of the embedding:
* Go slices become `List`; slice indexing `data[i]` is guarded: an operation
  returns `none` exactly when Go would panic with an index-out-of-range.
* Go `int` results (returned sizes) become `Int`; the `start`/`end` indices
  are `Nat` (every assignment in the source keeps them non-negative), but the
  `Size` computation subtracts them as Go ints, so it casts to `Int`.
* The `WhenFull`/`WhenEmpty` enumerations are Go ints, embedded as `Int`
  constants, so that the `default:` arm of the source's switch is faithful.
* Module errors (`ErrFullQueue`, ...) are distinct values of `GoErr`;
  `fmt.Errorf` at a call site creates a fresh error, embedded as `adHoc msg`,
  which is a different value from every module-level error.
* The `onClose` callback's side effects are embedded by returning the list of
  arguments the callback receives, in call order; `onClose : Bool` records
  whether a callback is registered (`!= nil`).
* `sync.Once` becomes a `closeDone : Bool` field: the body of `Do` runs only
  when the flag is still false, and sets it.
-/

namespace RoundRobin

/-- Errors of the module (interface.go) plus errors produced at call sites.
An `adHoc` error stands for a `fmt.Errorf` result, which is a fresh value,
never equal to one of the module-level errors. -/
inductive GoErr where
  | errFullQueue
  | errEmptyQueue
  | errClosed
  | errBadDeadline
  | errUnsupported
  | deadlineExceeded
  | adHoc (msg : String)
deriving DecidableEq, Repr

/-- WhenFullError = iota = 0 (interface.go). -/
def WhenFullError : Int := 0

/-- WhenFullOverwrite = 1 (interface.go). -/
def WhenFullOverwrite : Int := 1

/-- WhenEmptyError = iota = 0 (interface.go). -/
def WhenEmptyError : Int := 0

/-- WhenEmptyBlock = 1 (interface.go). -/
def WhenEmptyBlock : Int := 1

/-- The plain RingQueue[T] of roundrobin.go.  `end_` renders the Go field
`end` (a Lean keyword).  `onClose` records whether a callback is registered;
`closeDone` is the state of `closeOnce : sync.Once`. -/
structure RingQueue (T : Type) where
  data : List T
  isFull : Bool
  start : Nat
  end_ : Nat
  whenFull : Int
  closed : Bool
  onClose : Bool
  closeDone : Bool
deriving DecidableEq, Repr

/-- NewRingQueue (roundrobin.go): `make([]T, capacity)` filled with zero
values, both indices 0, not full, policy WhenFullError, not closed. -/
def NewRingQueue (T : Type) [Inhabited T] (capacity : Nat) : RingQueue T :=
  { data := List.replicate capacity default
    isFull := false
    start := 0
    end_ := 0
    whenFull := WhenFullError
    closed := false
    onClose := false
    closeDone := false }

/-- SetWhenFull (roundrobin.go): store the policy, return the receiver. -/
def RingQueue.setWhenFull (r : RingQueue T) (a : Int) : RingQueue T :=
  { r with whenFull := a }

/-- SetOnClose (roundrobin.go): register the callback, return the receiver. -/
def RingQueue.setOnClose (r : RingQueue T) (registered : Bool) : RingQueue T :=
  { r with onClose := registered }

/-- Size (roundrobin.go): 0 when closed, else `end - start` in Go int
arithmetic, corrected to `len` when 0-and-full and to `len - (-res)` when
negative. -/
def RingQueue.size (r : RingQueue T) : Int :=
  if r.closed then 0
  else
    let res : Int := (r.end_ : Int) - (r.start : Int)
    if res = 0 ∧ r.isFull then (r.data.length : Int)
    else if res < 0 then (r.data.length : Int) - res * (-1)
    else res

/-- Cap (roundrobin.go): 0 when closed, else `len(r.data)`. -/
def RingQueue.cap (r : RingQueue T) : Int :=
  if r.closed then 0 else (r.data.length : Int)

/-- Push (roundrobin.go).  Early returns: closed; full under WhenFullError;
full under an unrecognized policy.  Otherwise writes at `end`, advances `end`
modulo capacity, recomputes `isFull`, and returns the new `Size()`.
`none` models the index-out-of-range panic of `r.data[r.end]`. -/
def RingQueue.push (r : RingQueue T) (elem : T) :
    Option (RingQueue T × Int × Option GoErr) :=
  if r.closed then some (r, 0, some .errClosed)
  else if r.isFull ∧ r.whenFull = WhenFullError then
    some (r, 0, some .errFullQueue)
  else if r.isFull ∧ r.whenFull ≠ WhenFullOverwrite then
    some (r, 0, some .errUnsupported)
  else if _h : r.end_ < r.data.length then
    let r' : RingQueue T :=
      { r with
        data := r.data.set r.end_ elem
        end_ := (r.end_ + 1) % r.data.length
        isFull := decide ((r.end_ + 1) % r.data.length = r.start) }
    some (r', r'.size, none)
  else none

/-- Pop (roundrobin.go).  Early returns: closed; empty (`!isFull` and
`start == end`).  Otherwise reads at `start`, advances `start` modulo
capacity, clears `isFull`, and returns the element plus the new `Size()`.
`none` models the index-out-of-range panic of `r.data[r.start]`. -/
def RingQueue.pop [Inhabited T] (r : RingQueue T) :
    Option (T × RingQueue T × Int × Option GoErr) :=
  if r.closed then some (default, r, 0, some .errClosed)
  else if r.isFull = false ∧ r.start = r.end_ then
    some (default, r, 0, some .errEmptyQueue)
  else if h : r.start < r.data.length then
    let r' : RingQueue T :=
      { r with start := (r.start + 1) % r.data.length, isFull := false }
    some (r.data.get ⟨r.start, h⟩, r', r'.size, none)
  else none

/-- Peek (roundrobin.go).  Same closed/empty tests as Pop, but the empty
branch returns `fmt.Errorf("empty queue")` — a fresh ad-hoc error, not the
module's `ErrEmptyQueue` — and nothing is mutated, so no new state is
returned. -/
def RingQueue.peek [Inhabited T] (r : RingQueue T) :
    Option (T × Int × Option GoErr) :=
  if r.closed then some (default, 0, some .errClosed)
  else if r.isFull = false ∧ r.start = r.end_ then
    some (default, 0, some (.adHoc "empty queue"))
  else if h : r.start < r.data.length then
    some (r.data.get ⟨r.start, h⟩, r.size, none)
  else none

/-- The drain loop of Close (roundrobin.go):
`for (r.end - r.start) != 0 { res := r.data[r.start]; r.start = (r.start+1) % len; r.onClose(res) }`.
Both indices stay in `[0, len)` on reachable states, so the Go condition
`end - start != 0` is `start ≠ end`.  The returned list is the sequence of
callback arguments.  `fuel` bounds the iteration count (the caller passes
`data.length`, which suffices on in-bounds states); `none` models either the
out-of-range panic or fuel exhaustion (a loop Go would not exit). -/
def drainFrom (data : List T) : Nat → Nat → Nat → Option (List T)
  | 0, s, e => if e = s then some [] else none
  | Nat.succ fuel', s, e =>
    if e = s then some []
    else if h : s < data.length then
      Option.map (fun rest => data.get ⟨s, h⟩ :: rest)
        (drainFrom data fuel' ((s + 1) % data.length) e)
    else none

/-- Close (roundrobin.go).  Inside `closeOnce.Do`: set `closed`, run the
drain loop when a callback is registered, then `r.data = nil`.  Returns the
new state, the list of callback arguments, and the (always nil) error.
When the Once has already fired the body is skipped entirely. -/
def RingQueue.close (r : RingQueue T) :
    Option (RingQueue T × List T × Option GoErr) :=
  if r.closeDone then some (r, [], none)
  else if r.onClose then
    match drainFrom r.data r.data.length r.start r.end_ with
    | none => none
    | some drained =>
      some ({ r with closed := true, closeDone := true,
                     start := r.end_, data := [] }, drained, none)
  else
    some ({ r with closed := true, closeDone := true, data := [] }, [], none)

/-- The concurrency wrapper safeRQ[T] (roundrobin_safe.go), with the
synchronization state made explicit: `closedCh` is whether `close(s.closed)`
has happened, `closeOnceDone` the state of its `sync.Once`, `availTokens`
the number of tokens buffered in the capacity-1 `available` channel.  The
deadline timer is not modelled (it only matters for real-time waits); the
deterministic embedding of the blocking select below resolves races in favor
of the close signal. -/
structure SafeRQ (T : Type) where
  rq : RingQueue T
  closedCh : Bool
  closeOnceDone : Bool
  whenEmpty : Int
  availTokens : Nat
deriving DecidableEq, Repr

/-- NewSafeRingQueue (roundrobin_safe.go): builds the inner queue with the
given policies and callback, returns nil (`none`) when either policy is not
one of its two recognized values. -/
def NewSafeRingQueue (T : Type) [Inhabited T] (capacity : Nat)
    (whenFull whenEmpty : Int) (onCloseFunc : Bool) : Option (SafeRQ T) :=
  let rq := (((NewRingQueue T capacity).setWhenFull whenFull).setOnClose
    onCloseFunc).setOnClose onCloseFunc
  if whenEmpty ≠ WhenEmptyBlock ∧ whenEmpty ≠ WhenEmptyError then none
  else if whenFull ≠ WhenFullOverwrite ∧ whenFull ≠ WhenFullError then none
  else
    some { rq := rq
           closedCh := false
           closeOnceDone := false
           whenEmpty := whenEmpty
           availTokens := 0 }

/-- safeRQ.Close (roundrobin_safe.go): under the lock, fire the close
channel once, then delegate to the inner queue's Close; returns its result
(arguments passed to the drain callback, and the error). -/
def SafeRQ.close (s : SafeRQ T) : Option (SafeRQ T × List T × Option GoErr) :=
  let s1 :=
    if s.closeOnceDone then s
    else { s with closedCh := true, closeOnceDone := true }
  Option.map (fun r => ({ s1 with rq := r.1 }, r.2.1, r.2.2)) s1.rq.close

/-- safeRQ.Size (roundrobin_safe.go): locked delegation. -/
def SafeRQ.size (s : SafeRQ T) : Int := s.rq.size

/-- safeRQ.Cap (roundrobin_safe.go): locked delegation. -/
def SafeRQ.capacity (s : SafeRQ T) : Int := s.rq.cap

/-- safeRQ.Peek (roundrobin_safe.go): locked delegation. -/
def SafeRQ.peek [Inhabited T] (s : SafeRQ T) : Option (T × Int × Option GoErr) :=
  s.rq.peek

/-- safeRQ.Push (roundrobin_safe.go): guardedPush (on error the returned
length is zeroed), then, under the Block underflow policy, a select that
reports Closed when the close channel has fired, otherwise a best-effort
send of one availability token (dropped when one is already buffered). -/
def SafeRQ.push (s : SafeRQ T) (element : T) :
    Option (SafeRQ T × Int × Option GoErr) :=
  match s.rq.push element with
  | none => none
  | some (rq', n, err) =>
    let newLen : Int := if err = none then n else 0
    let err0 : Option GoErr := err
    let s' := { s with rq := rq' }
    if s'.whenEmpty = WhenEmptyBlock then
      if s'.closedCh then some (s', 0, some .errClosed)
      else if s'.availTokens = 0 then
        some ({ s' with availTokens := 1 }, newLen, err0)
      else some (s', newLen, err0)
    else some (s', newLen, err0)

/-- Outcome of one safeRQ.Pop call: a returned triple with the new state,
a park on the three-way select with no ready event (`blocked`), or a Go
panic (`crash`, covering both an index panic inside the store and the
`panic("unreachable")` arm for an unrecognized underflow policy). -/
inductive SafePopResult (T : Type) where
  | ret (elem : T) (newLen : Int) (err : Option GoErr) (s' : SafeRQ T)
  | blocked
  | crash
deriving DecidableEq, Repr

/-- safeRQ.Pop (roundrobin_safe.go): guardedPop; on success return; on any
error, under WhenEmptyError report `ErrEmptyQueue`, under WhenEmptyBlock
wait on {closed, available, deadline}.  The select is determinized: the
close signal wins when fired; otherwise an availability token is consumed
and the whole Pop re-runs (fuelled recursion mirrors the source's
`return s.Pop()`); with no ready event the call parks (`blocked` — the
deadline timer that could end the park is not modelled). -/
def SafeRQ.popFuel [Inhabited T] : Nat → SafeRQ T → SafePopResult T
  | fuel, s =>
    match s.rq.pop with
    | none => .crash
    | some (elem, rq', n, none) => .ret elem n none { s with rq := rq' }
    | some (_, rq', _, some _) =>
      let s' := { s with rq := rq' }
      if s'.whenEmpty = WhenEmptyError then
        .ret default 0 (some .errEmptyQueue) s'
      else if s'.whenEmpty = WhenEmptyBlock then
        if s'.closedCh then .ret default 0 (some .errClosed) s'
        else if 1 ≤ s'.availTokens then
          match fuel with
          | 0 => .blocked
          | Nat.succ fuel' =>
            SafeRQ.popFuel fuel' { s' with availTokens := s'.availTokens - 1 }
        else .blocked
      else .crash

/-- The RuneRingQueue (rune-specialized variant).  Same fields as the plain
queue minus the close machinery; runes are Go int32 values, embedded as
`Int`. -/
structure RuneRingQueue where
  data : List Int
  isFull : Bool
  start : Nat
  end_ : Nat
  whenFull : Int
deriving DecidableEq, Repr

/-- NewRuneRingQueue: zeroed storage, indices 0, not full, WhenFullError. -/
def NewRuneRingQueue (capacity : Nat) : RuneRingQueue :=
  { data := List.replicate capacity 0
    isFull := false
    start := 0
    end_ := 0
    whenFull := WhenFullError }

/-- RuneRingQueue.SetWhenFull: store the policy. -/
def RuneRingQueue.setWhenFull (r : RuneRingQueue) (a : Int) : RuneRingQueue :=
  { r with whenFull := a }

/-- RuneRingQueue.Size: same arithmetic as the generic Size, but with no
closed test (the rune variant has no closed state). -/
def RuneRingQueue.size (r : RuneRingQueue) : Int :=
  let res : Int := (r.end_ : Int) - (r.start : Int)
  if res = 0 ∧ r.isFull then (r.data.length : Int)
  else if res < 0 then (r.data.length : Int) - res * (-1)
  else res

/-- RuneRingQueue.Push.  The source starts with
`if r.isFull { return r.Size(), ErrFullQueue }`, an unconditional early
return, so the policy switch that follows (guarded by a second
`if r.isFull`) is dead code; it is nevertheless embedded faithfully. -/
def RuneRingQueue.push (r : RuneRingQueue) (elem : Int) :
    Option (RuneRingQueue × Int × Option GoErr) :=
  if r.isFull then some (r, r.size, some .errFullQueue)
  else if r.isFull ∧ r.whenFull = WhenFullError then
    some (r, 0, some .errFullQueue)
  else if r.isFull ∧ r.whenFull ≠ WhenFullOverwrite then
    some (r, 0, some .errUnsupported)
  else if _h : r.end_ < r.data.length then
    let r' : RuneRingQueue :=
      { r with
        data := r.data.set r.end_ elem
        end_ := (r.end_ + 1) % r.data.length
        isFull := decide ((r.end_ + 1) % r.data.length = r.start) }
    some (r', r'.size, none)
  else none

/-- Sequential pushes of a list of elements; `some` only when every push
returns with a nil error (and no panic). -/
def pushList (r : RingQueue T) : List T → Option (RingQueue T)
  | [] => some r
  | x :: xs =>
    match r.push x with
    | some (r', _, none) => pushList r' xs
    | _ => none

/-- Sequence of n pops; `some (values, final state)` only when every pop
returns with a nil error (and no panic). -/
def popList [Inhabited T] (r : RingQueue T) : Nat → Option (List T × RingQueue T)
  | 0 => some ([], r)
  | Nat.succ n =>
    match r.pop with
    | some (x, r', _, none) =>
      Option.map (fun p => (x :: p.1, p.2)) (popList r' n)
    | _ => none

/-- The cyclic segment of `data` from index `s` (inclusive) to index `e`
(exclusive): the elements a head-to-tail walk of the ring visits.  This is
the abstraction used to state what the Close drain loop passes to the
callback; it is empty when `s = e`. -/
def cyclicSeg (data : List T) (s e : Nat) : List T :=
  if s ≤ e then (data.drop s).take (e - s) else data.drop s ++ data.take e

/-- The state of a fresh queue of the given capacity and overflow policy
after the elements of `pushed` (at most `capacity` of them) have been pushed:
storage holds `pushed` followed by untouched zero slots, `start` is still 0,
`end` is `pushed.length` modulo the capacity, and the queue is full exactly
when `pushed.length = capacity > 0`. -/
def filledQueue (T : Type) [Inhabited T] (capacity : Nat) (policy : Int)
    (pushed : List T) : RingQueue T :=
  { data := pushed ++ List.replicate (capacity - pushed.length) default
    isFull := decide (0 < capacity ∧ pushed.length = capacity)
    start := 0
    end_ := pushed.length % capacity
    whenFull := policy
    closed := false
    onClose := false
    closeDone := false }

/-- The state of `filledQueue T capacity policy pushed` after its first `j`
elements have been popped again (`j ≤ pushed.length`). -/
def drainingQueue (T : Type) [Inhabited T] (capacity : Nat) (policy : Int)
    (pushed : List T) (j : Nat) : RingQueue T :=
  { data := pushed ++ List.replicate (capacity - pushed.length) default
    isFull := decide (0 < capacity ∧ pushed.length = capacity ∧ j = 0)
    start := j % capacity
    end_ := pushed.length % capacity
    whenFull := policy
    closed := false
    onClose := false
    closeDone := false }

/-- The drain loop, on a non-wrapping segment (`s ≤ e < len`), visits the
slots `s, s+1, ..., e-1` in order and needs at most `e - s` iterations. -/
theorem drainFrom_no_wrap {T : Type} (data : List T) :
    ∀ (fuel s e : Nat), s ≤ e → e < data.length → e - s ≤ fuel →
      drainFrom data fuel s e = some ((data.drop s).take (e - s)) := by
  intro fuel
  induction fuel with
  | zero =>
    intro s e hse _ hf
    have hes : e = s := by omega
    subst hes
    simp [drainFrom]
  | succ fuel ih =>
    intro s e hse he hf
    by_cases hes : e = s
    · subst hes; simp [drainFrom]
    · have hsd : s < data.length := by omega
      have hmod : (s + 1) % data.length = s + 1 := Nat.mod_eq_of_lt (by omega)
      have hrec := ih (s + 1) e (by omega) he (by omega)
      rw [drainFrom, if_neg hes, dif_pos hsd, hmod, hrec]
      have hdrop : data.drop s = data[s] :: data.drop (s + 1) :=
        List.drop_eq_getElem_cons hsd
      have hstep : e - s = (e - (s + 1)) + 1 := by omega
      simp only [Option.map_some', List.get_eq_getElem]
      rw [hstep, hdrop, List.take_succ_cons]

/-- The drain loop, on a wrapping segment (`e < s < len`), visits the slots
`s, ..., len-1, 0, ..., e-1` in order within `(len - s) + e` iterations. -/
theorem drainFrom_wrap {T : Type} (data : List T) :
    ∀ (fuel s e : Nat), e < s → s < data.length → (data.length - s) + e ≤ fuel →
      drainFrom data fuel s e = some (data.drop s ++ data.take e) := by
  intro fuel
  induction fuel with
  | zero => intro s e hes hs hf; omega
  | succ fuel ih =>
    intro s e hes hs hf
    have hne : e ≠ s := by omega
    have hdrop : data.drop s = data[s] :: data.drop (s + 1) :=
      List.drop_eq_getElem_cons hs
    by_cases hlast : s + 1 = data.length
    · have hmod : (s + 1) % data.length = 0 := by
        rw [hlast]; exact Nat.mod_self _
      have hrec := drainFrom_no_wrap data fuel 0 e (Nat.zero_le e) (by omega)
        (by omega)
      rw [drainFrom, if_neg hne, dif_pos hs, hmod, hrec]
      have hnil : data.drop (s + 1) = [] := by
        rw [hlast]; exact List.drop_length data
      simp only [Option.map_some', List.get_eq_getElem]
      rw [hdrop, hnil, Nat.sub_zero, List.drop_zero, List.singleton_append]
    · have hmod : (s + 1) % data.length = s + 1 := Nat.mod_eq_of_lt (by omega)
      have hrec := ih (s + 1) e (by omega) (by omega) (by omega)
      rw [drainFrom, if_neg hne, dif_pos hs, hmod, hrec]
      simp only [Option.map_some', List.get_eq_getElem]
      rw [hdrop, List.cons_append]

/-- With fuel `data.length` (what Close passes) and in-bounds indices, the
drain loop terminates and returns exactly the cyclic segment from `s` to
`e`. -/
theorem drainFrom_full_fuel {T : Type} (data : List T) (s e : Nat)
    (hs : s < data.length) (he : e < data.length) :
    drainFrom data data.length s e = some (cyclicSeg data s e) := by
  unfold cyclicSeg
  by_cases h : s ≤ e
  · rw [if_pos h]; exact drainFrom_no_wrap data _ s e h he (by omega)
  · rw [if_neg h]; exact drainFrom_wrap data _ s e (by omega) hs (by omega)

/-- Close on a state whose Once has already fired does nothing: same state,
no callback invocations, nil error. -/
theorem close_closeDone {T : Type} (q : RingQueue T) (h : q.closeDone = true) :
    q.close = some (q, [], none) := by
  simp [RingQueue.close, h]

/-- Whenever Close returns, its error is nil, the resulting state has the
Once fired, and a repeat Close returns the same state with no callback
invocations. -/
theorem close_after_close {T : Type} (q q' : RingQueue T) (evs : List T)
    (err : Option GoErr) (h : q.close = some (q', evs, err)) :
    err = none ∧ q'.closeDone = true ∧ q'.close = some (q', [], none) := by
  unfold RingQueue.close at h
  split at h
  · next h1 =>
    injection h with heq
    simp only [Prod.mk.injEq] at heq
    obtain ⟨hq, hevs, herr⟩ := heq
    subst hq hevs herr
    exact ⟨rfl, h1, close_closeDone q h1⟩
  · next h1 =>
    split at h
    · next h2 =>
      split at h
      · next hdr => exact Option.noConfusion h
      · next drained hdr =>
        injection h with heq
        simp only [Prod.mk.injEq] at heq
        obtain ⟨hq, hevs, herr⟩ := heq
        subst hq hevs herr
        exact ⟨rfl, rfl, close_closeDone _ rfl⟩
    · next h2 =>
      injection h with heq
      simp only [Prod.mk.injEq] at heq
      obtain ⟨hq, hevs, herr⟩ := heq
      subst hq hevs herr
      exact ⟨rfl, rfl, close_closeDone _ rfl⟩

/-- C1 (code evaluation at the failing input): capacity 5, Overwrite policy,
push 0..4 to full (Size 5), then Push 15.  The push succeeds with no error,
but the code returns new size 1 and the queue's occupancy collapses to 1:
`start` is not advanced and `isFull` is cleared, so all five previously
stored elements — not just the oldest — are logically discarded, and Size()
is 1, not the capacity 5 the claim (and the repo's own
Test_PushFull_WhenFullOverwrite) requires. -/
theorem overwrite_push_on_full_collapses_occupancy :
    pushList ((NewRingQueue Int 5).setWhenFull WhenFullOverwrite)
        [0, 1, 2, 3, 4] =
      some ⟨[0, 1, 2, 3, 4], true, 0, 0, 1, false, false, false⟩ ∧
    RingQueue.size
      (⟨[0, 1, 2, 3, 4], true, 0, 0, 1, false, false, false⟩ : RingQueue Int)
      = 5 ∧
    RingQueue.push
      (⟨[0, 1, 2, 3, 4], true, 0, 0, 1, false, false, false⟩ : RingQueue Int)
      15 =
      some (⟨[15, 1, 2, 3, 4], false, 0, 1, 1, false, false, false⟩, 1, none) ∧
    RingQueue.size
      (⟨[15, 1, 2, 3, 4], false, 0, 1, 1, false, false, false⟩ : RingQueue Int)
      = 1 ∧
    ¬ RingQueue.size
      (⟨[15, 1, 2, 3, 4], false, 0, 1, 1, false, false, false⟩ : RingQueue Int)
      = 5 := by
  decide

/-- C5: capacity 5 under Overwrite, after pushing 0, 1, 2, 3, 4 and then 15,
the next Pop returns the value 15 (not 0) with no error (the overwritten
slot is the one `start` points at, so the new element is popped first). -/
theorem overwrite_scenario_pop_returns_fifteen :
    pushList ((NewRingQueue Int 5).setWhenFull WhenFullOverwrite)
        [0, 1, 2, 3, 4] =
      some ⟨[0, 1, 2, 3, 4], true, 0, 0, 1, false, false, false⟩ ∧
    RingQueue.push
      (⟨[0, 1, 2, 3, 4], true, 0, 0, 1, false, false, false⟩ : RingQueue Int)
      15 =
      some (⟨[15, 1, 2, 3, 4], false, 0, 1, 1, false, false, false⟩, 1, none) ∧
    RingQueue.pop
      (⟨[15, 1, 2, 3, 4], false, 0, 1, 1, false, false, false⟩ : RingQueue Int)
      = some (15, ⟨[15, 1, 2, 3, 4], false, 1, 1, 1, false, false, false⟩, 0,
        none) := by
  decide

/-- C2 (counterexample): a full queue (capacity 2 holding 7 and 8, with a
callback registered) has two resident elements, yet Close invokes the
callback zero times: the drain loop's condition `end - start != 0` is
already false because a full queue has `end == start`.  The claim requires
the callback list [7, 8]. -/
theorem close_full_queue_invokes_no_callback :
    pushList ((NewRingQueue Int 2).setOnClose true) [7, 8] =
      some ⟨[7, 8], true, 0, 0, 0, false, true, false⟩ ∧
    RingQueue.size
      (⟨[7, 8], true, 0, 0, 0, false, true, false⟩ : RingQueue Int) = 2 ∧
    RingQueue.close
      (⟨[7, 8], true, 0, 0, 0, false, true, false⟩ : RingQueue Int) =
      some (⟨[], true, 0, 0, 0, true, true, true⟩, [], none) ∧
    ([] : List Int) ≠ [7, 8] := by
  decide

/-- C3 (code evaluation at the failing input): a concurrency-safe queue with
underflow policy WhenEmptyError, once closed, reports `ErrEmptyQueue` — not
`ErrClosed` — from Pop: the wrapper treats every inner-pop error as an empty
queue.  Push and Peek do report Closed, and Size/Cap report 0, as the claim
says. -/
theorem safe_pop_after_close_reports_empty_not_closed :
    NewSafeRingQueue Int 3 WhenFullError WhenEmptyError false =
      some ⟨⟨[0, 0, 0], false, 0, 0, 0, false, false, false⟩,
        false, false, 0, 0⟩ ∧
    SafeRQ.close
      (⟨⟨[0, 0, 0], false, 0, 0, 0, false, false, false⟩,
        false, false, 0, 0⟩ : SafeRQ Int) =
      some (⟨⟨[], false, 0, 0, 0, true, false, true⟩, true, true, 0, 0⟩,
        [], none) ∧
    SafeRQ.popFuel 1
      (⟨⟨[], false, 0, 0, 0, true, false, true⟩, true, true, 0, 0⟩ :
        SafeRQ Int) =
      .ret 0 0 (some .errEmptyQueue)
        ⟨⟨[], false, 0, 0, 0, true, false, true⟩, true, true, 0, 0⟩ ∧
    GoErr.errEmptyQueue ≠ GoErr.errClosed ∧
    SafeRQ.push
      (⟨⟨[], false, 0, 0, 0, true, false, true⟩, true, true, 0, 0⟩ :
        SafeRQ Int) 42 =
      some (⟨⟨[], false, 0, 0, 0, true, false, true⟩, true, true, 0, 0⟩,
        0, some .errClosed) ∧
    SafeRQ.peek
      (⟨⟨[], false, 0, 0, 0, true, false, true⟩, true, true, 0, 0⟩ :
        SafeRQ Int) = some (0, 0, some .errClosed) ∧
    SafeRQ.size
      (⟨⟨[], false, 0, 0, 0, true, false, true⟩, true, true, 0, 0⟩ :
        SafeRQ Int) = 0 ∧
    SafeRQ.capacity
      (⟨⟨[], false, 0, 0, 0, true, false, true⟩, true, true, 0, 0⟩ :
        SafeRQ Int) = 0 := by
  decide

/-- C8 (counterexample): on an empty, non-closed queue, Peek fails with the
call-site error `fmt.Errorf("empty queue")`, which is a different error
value from the module's `ErrEmptyQueue` that Pop reports. -/
theorem peek_empty_error_not_module_empty_error :
    (NewRingQueue Int 3).peek = some (0, 0, some (.adHoc "empty queue")) ∧
    (NewRingQueue Int 3).pop =
      some (0, NewRingQueue Int 3, 0, some .errEmptyQueue) ∧
    GoErr.adHoc "empty queue" ≠ GoErr.errEmptyQueue := by
  decide

/-- C8 (amended): on an empty, non-closed queue, Peek applies the same
emptiness check as Pop (`!isFull` and `start == end`) and fails — but with a
fresh ad-hoc "empty queue" error, not the module's `ErrEmptyQueue` that Pop
reports — while Pop's error branch also leaves the state unchanged; on a
non-empty, non-closed queue Peek returns the element at `start` and the
current occupancy.  Peek never returns a new state in this embedding
because the source mutates nothing. -/
theorem peek_empty_adhoc_error_and_nonempty_head {T : Type} [Inhabited T]
    (q : RingQueue T) (hc : q.closed = false) (hs : q.start < q.data.length) :
    (q.isFull = false ∧ q.start = q.end_ →
      q.peek = some (default, 0, some (.adHoc "empty queue")) ∧
      q.pop = some (default, q, 0, some .errEmptyQueue)) ∧
    (¬ (q.isFull = false ∧ q.start = q.end_) →
      q.peek = some (q.data.get ⟨q.start, hs⟩, q.size, none)) := by
  constructor
  · rintro ⟨h1, h2⟩
    constructor
    · simp [RingQueue.peek, hc, h1, h2]
    · simp [RingQueue.pop, hc, h1, h2]
  · intro hne
    unfold RingQueue.peek
    rw [if_neg (by simp [hc]), if_neg hne, dif_pos hs]

/-- C8 witness: the amended Peek/Pop behavior at the concrete empty queue of
capacity 3. -/
theorem peek_empty_adhoc_error_witness :
    RingQueue.peek (NewRingQueue Int 3) =
      some (default, 0, some (.adHoc "empty queue")) ∧
    RingQueue.pop (NewRingQueue Int 3) =
      some (default, NewRingQueue Int 3, 0, some .errEmptyQueue) :=
  (peek_empty_adhoc_error_and_nonempty_head (NewRingQueue Int 3) rfl
    (by decide)).1 ⟨rfl, rfl⟩

/-- C10: a full RuneRingQueue rejects every Push with `ErrFullQueue`,
returning the current size (not 0) alongside the error, and leaves the
state unchanged — regardless of the policy installed with SetWhenFull,
because the unconditional `if r.isFull` early return precedes (and makes
unreachable) the policy switch including its overwrite branch. -/
theorem rune_push_full_ignores_policy (q : RuneRingQueue) (p x : Int)
    (h : q.isFull = true) :
    (q.setWhenFull p).push x =
      some (q.setWhenFull p, q.size, some .errFullQueue) := by
  simp [RuneRingQueue.push, RuneRingQueue.setWhenFull, RuneRingQueue.size, h]

/-- C10 witness: a full rune queue of capacity 1, switched to the Overwrite
policy, still rejects a push with the Full error and size 1. -/
theorem rune_push_full_ignores_policy_witness :
    (⟨[97], true, 0, 0, 0⟩ : RuneRingQueue).isFull = true ∧
    RuneRingQueue.push
      (RuneRingQueue.setWhenFull ⟨[97], true, 0, 0, 0⟩ WhenFullOverwrite) 98 =
      some (RuneRingQueue.setWhenFull ⟨[97], true, 0, 0, 0⟩ WhenFullOverwrite,
        RuneRingQueue.size ⟨[97], true, 0, 0, 0⟩, some .errFullQueue) :=
  ⟨rfl, rune_push_full_ignores_policy ⟨[97], true, 0, 0, 0⟩ WhenFullOverwrite
    98 rfl⟩

/-- C6: a full, non-closed queue under the Fail overflow policy rejects
Push with `ErrFullQueue` and is left completely unchanged (the same state is
returned, so every stored element keeps its value and FIFO position), and
its Size still equals its Cap, the capacity. -/
theorem push_full_fail_policy_leaves_queue_unchanged {T : Type} [Inhabited T]
    (q : RingQueue T) (x : T) (hc : q.closed = false) (hf : q.isFull = true)
    (hw : q.whenFull = WhenFullError) (hse : q.start = q.end_) :
    q.push x = some (q, 0, some .errFullQueue) ∧
    q.size = q.cap ∧ q.cap = (q.data.length : Int) := by
  refine ⟨?_, ?_, ?_⟩
  · simp [RingQueue.push, hc, hf, hw]
  · simp [RingQueue.size, RingQueue.cap, hc, hf, hse]
  · simp [RingQueue.cap, hc]

/-- C6 witness: the concrete full queue of capacity 5 under WhenFullError. -/
theorem push_full_fail_policy_witness :
    RingQueue.push
      (⟨[0, 1, 2, 3, 4], true, 0, 0, 0, false, false, false⟩ : RingQueue Int)
      99 =
      some (⟨[0, 1, 2, 3, 4], true, 0, 0, 0, false, false, false⟩, 0,
        some .errFullQueue) ∧
    RingQueue.size
      (⟨[0, 1, 2, 3, 4], true, 0, 0, 0, false, false, false⟩ : RingQueue Int)
      = 5 :=
  ⟨(push_full_fail_policy_leaves_queue_unchanged _ 99 rfl rfl rfl rfl).1,
    by decide⟩

/-- C7: Close is idempotent for both the plain queue and the safe wrapper:
whenever Close returns, its error is nil, and a second Close returns the
very same state with no further callback invocations. -/
theorem close_twice_same_as_once {T : Type} :
    (∀ (q q' : RingQueue T) (evs : List T) (err : Option GoErr),
      q.close = some (q', evs, err) →
        err = none ∧ q'.close = some (q', [], none)) ∧
    (∀ (s s' : SafeRQ T) (evs : List T) (err : Option GoErr),
      s.close = some (s', evs, err) →
        err = none ∧ s'.close = some (s', [], none)) := by
  constructor
  · intro q q' evs err h
    obtain ⟨he, _, hc⟩ := close_after_close q q' evs err h
    exact ⟨he, hc⟩
  · intro s s' evs err h
    simp only [SafeRQ.close] at h
    cases hq : (if s.closeOnceDone then s
        else { s with closedCh := true, closeOnceDone := true }).rq.close with
    | none => rw [hq] at h; exact Option.noConfusion h
    | some r =>
      obtain ⟨rq', evs0, err0⟩ := r
      rw [hq] at h
      simp only [Option.map_some'] at h
      injection h with heq
      simp only [Prod.mk.injEq] at heq
      obtain ⟨hs', hevs, herr⟩ := heq
      obtain ⟨he0, _, hc0⟩ := close_after_close _ rq' evs0 err0 hq
      subst hs' hevs herr
      refine ⟨he0, ?_⟩
      simp only [SafeRQ.close]
      have hdone : (if s.closeOnceDone then s
          else { s with closedCh := true, closeOnceDone := true
          }).closeOnceDone = true := by
        by_cases hsd : s.closeOnceDone = true
        · simp [hsd]
        · simp [Bool.not_eq_true] at hsd
          simp [hsd]
      rw [if_pos hdone, hc0]
      rfl

/-- C7 witness: closing a fresh queue of capacity 2 once yields a state that
a second Close maps to itself with no callback invocations and a nil
error. -/
theorem close_twice_same_as_once_witness :
    (none : Option GoErr) = none ∧
    RingQueue.close
      (⟨[], false, 0, 0, 0, true, false, true⟩ : RingQueue Int) =
      some (⟨[], false, 0, 0, 0, true, false, true⟩, [], none) :=
  close_twice_same_as_once.1 (NewRingQueue Int 2) _ [] none (by decide)

/-- C2 (amended): with a callback registered, the first Close passes to the
callback exactly the cyclic segment of slots from `start` (inclusive) to
`end` (exclusive) in FIFO order — which on a non-full queue is precisely the
resident, not-yet-popped elements, and their count equals Size(); but when
`start = end` (in particular on a full queue) that segment is empty, so a
full queue's elements are never passed.  A second Close invokes the
callback on nothing and returns the same state. -/
theorem close_drains_cyclic_segment_between_indices {T : Type}
    (q : RingQueue T) (hs : q.start < q.data.length)
    (he : q.end_ < q.data.length) (hd : q.closeDone = false)
    (hcb : q.onClose = true) :
    q.close = some (⟨[], q.isFull, q.end_, q.end_, q.whenFull, true,
        q.onClose, true⟩, cyclicSeg q.data q.start q.end_, none) ∧
    RingQueue.close (⟨[], q.isFull, q.end_, q.end_, q.whenFull, true,
        q.onClose, true⟩ : RingQueue T) =
      some (⟨[], q.isFull, q.end_, q.end_, q.whenFull, true, q.onClose,
        true⟩, [], none) ∧
    (q.isFull = false → q.closed = false →
      ((cyclicSeg q.data q.start q.end_).length : Int) = q.size) := by
  refine ⟨?_, close_closeDone _ rfl, ?_⟩
  · unfold RingQueue.close
    rw [if_neg (by simp [hd]), if_pos hcb,
      drainFrom_full_fuel q.data q.start q.end_ hs he]
  · intro hfull hcl
    have hlen : (cyclicSeg q.data q.start q.end_).length =
        if q.start ≤ q.end_ then q.end_ - q.start
        else (q.data.length - q.start) + q.end_ := by
      unfold cyclicSeg
      split
      · next hle => rw [List.length_take, List.length_drop]; omega
      · next hgt =>
        rw [List.length_append, List.length_drop, List.length_take]; omega
    have hsize : q.size =
        if (q.end_ : Int) - (q.start : Int) < 0 then
          (q.data.length : Int) - ((q.start : Int) - (q.end_ : Int))
        else (q.end_ : Int) - (q.start : Int) := by
      simp only [RingQueue.size]
      rw [if_neg (show ¬ q.closed = true by simp [hcl]),
        if_neg (show ¬ ((q.end_ : Int) - (q.start : Int) = 0 ∧
          q.isFull = true) by simp [hfull]),
        show ((q.end_ : Int) - (q.start : Int)) * (-1) =
          (q.start : Int) - (q.end_ : Int) by ring]
    rw [hlen, hsize]
    rcases le_or_lt q.start q.end_ with hle | hgt
    · rw [if_pos hle, if_neg (by omega)]
      omega
    · rw [if_neg (by omega), if_pos (by omega)]
      omega

/-- C2 witness: capacity 10 holding elements 5..9 after a wrap (start 5,
end 0): Close passes exactly [5, 6, 7, 8, 9] — the resident elements in
FIFO order — to the callback. -/
theorem close_drains_cyclic_segment_witness :
    RingQueue.close
      (⟨[0, 1, 2, 3, 4, 5, 6, 7, 8, 9], false, 5, 0, 0, false, true, false⟩ :
        RingQueue Int) =
      some (⟨[], false, 0, 0, 0, true, true, true⟩,
        cyclicSeg [0, 1, 2, 3, 4, 5, 6, 7, 8, 9] 5 0, none) ∧
    cyclicSeg ([0, 1, 2, 3, 4, 5, 6, 7, 8, 9] : List Int) 5 0 =
      [5, 6, 7, 8, 9] :=
  ⟨(close_drains_cyclic_segment_between_indices _ (by decide) (by decide)
    rfl rfl).1, by decide⟩

/-- C9: every queue state with in-bounds indices (as NewRingQueue produces
for every positive capacity, and as Push and Pop preserve) runs Push, Pop,
Peek and Close without reaching an out-of-bounds access (`none`, the
embedding of the Go index panic, never occurs); but on the unvalidated
capacity-0 queue, Push reaches the out-of-bounds write and panics instead
of returning an error. -/
theorem ops_in_bounds_and_zero_capacity_push_panics :
    (∀ (q : RingQueue Int) (x : Int),
      q.start < q.data.length → q.end_ < q.data.length →
      (q.push x).isSome ∧ (q.pop).isSome ∧ (q.peek).isSome ∧
        (q.close).isSome ∧
        (∀ q' n e, q.push x = some (q', n, e) →
          q'.start < q'.data.length ∧ q'.end_ < q'.data.length) ∧
        (∀ y q' n e, q.pop = some (y, q', n, e) →
          q'.start < q'.data.length ∧ q'.end_ < q'.data.length)) ∧
    (∀ c : Nat, 1 ≤ c →
      (NewRingQueue Int c).start < (NewRingQueue Int c).data.length ∧
      (NewRingQueue Int c).end_ < (NewRingQueue Int c).data.length) ∧
    (NewRingQueue Int 0).push 42 = none := by
  refine ⟨fun q x hs he => ⟨?_, ?_, ?_, ?_, ?_, ?_⟩, fun c hc => ?_, by decide⟩
  · unfold RingQueue.push
    split
    · rfl
    · split
      · rfl
      · split
        · rfl
        · rfl
  · unfold RingQueue.pop
    split
    · rfl
    · split
      · rfl
      · rfl
  · unfold RingQueue.peek
    split
    · rfl
    · split
      · rfl
      · rfl
  · unfold RingQueue.close
    split
    · rfl
    · split
      · rw [drainFrom_full_fuel q.data q.start q.end_ hs he]; rfl
      · rfl
  · intro q' n e hp
    unfold RingQueue.push at hp
    split at hp
    · injection hp with heq
      simp only [Prod.mk.injEq] at heq
      obtain ⟨h1, -, -⟩ := heq
      subst h1
      exact ⟨hs, he⟩
    · split at hp
      · injection hp with heq
        simp only [Prod.mk.injEq] at heq
        obtain ⟨h1, -, -⟩ := heq
        subst h1
        exact ⟨hs, he⟩
      · split at hp
        · injection hp with heq
          simp only [Prod.mk.injEq] at heq
          obtain ⟨h1, -, -⟩ := heq
          subst h1
          exact ⟨hs, he⟩
        · injection hp with heq
          simp only [Prod.mk.injEq] at heq
          obtain ⟨h1, -, -⟩ := heq
          subst h1
          refine ⟨by simpa using hs, ?_⟩
          simp only [List.length_set]
          exact Nat.mod_lt _ (by omega)
  · intro y q' n e hp
    unfold RingQueue.pop at hp
    split at hp
    · injection hp with heq
      simp only [Prod.mk.injEq] at heq
      obtain ⟨-, h1, -, -⟩ := heq
      subst h1
      exact ⟨hs, he⟩
    · split at hp
      · injection hp with heq
        simp only [Prod.mk.injEq] at heq
        obtain ⟨-, h1, -, -⟩ := heq
        subst h1
        exact ⟨hs, he⟩
      · injection hp with heq
        simp only [Prod.mk.injEq] at heq
        obtain ⟨-, h1, -, -⟩ := heq
        subst h1
        exact ⟨Nat.mod_lt _ (by omega), he⟩
  · constructor
    · simpa [NewRingQueue] using hc
    · simpa [NewRingQueue] using hc

/-- C9 witness: the capacity-1 fresh queue accepts a push without panic,
while the capacity-0 fresh queue's push panics. -/
theorem ops_in_bounds_witness :
    ((NewRingQueue Int 1).push 5).isSome ∧
    (NewRingQueue Int 0).push 42 = none :=
  ⟨(ops_in_bounds_and_zero_capacity_push_panics.1 (NewRingQueue Int 1) 5
      (by decide) (by decide)).1,
    ops_in_bounds_and_zero_capacity_push_panics.2.2⟩

/-- A queue holding `pushed` elements pushed since fresh has storage length
equal to the capacity. -/
theorem filledQueue_data_length {T : Type} [Inhabited T] (capacity : Nat)
    (policy : Int) (pushed : List T) (h : pushed.length ≤ capacity) :
    (filledQueue T capacity policy pushed).data.length = capacity := by
  simp [filledQueue]
  omega

/-- Size reports the number of elements pushed since fresh, as long as it
does not exceed the capacity. -/
theorem filledQueue_size {T : Type} [Inhabited T] (capacity : Nat)
    (policy : Int) (pushed : List T) (h : pushed.length ≤ capacity) :
    (filledQueue T capacity policy pushed).size = (pushed.length : Int) := by
  rcases Nat.lt_or_ge pushed.length capacity with hlt | hge
  · have hmod : pushed.length % capacity = pushed.length :=
      Nat.mod_eq_of_lt hlt
    have hfull : decide (0 < capacity ∧ pushed.length = capacity) = false := by
      simp only [decide_eq_false_iff_not]; omega
    simp [RingQueue.size, filledQueue, hmod, hfull]
  · have hk : pushed.length = capacity := le_antisymm h hge
    by_cases h0 : capacity = 0
    · subst h0
      have hnil : pushed = [] := List.eq_nil_of_length_eq_zero (by omega)
      subst hnil
      simp [RingQueue.size, filledQueue]
    · have hmod : pushed.length % capacity = 0 := by
        rw [hk]; exact Nat.mod_self _
      have hfull : decide (0 < capacity ∧ pushed.length = capacity) = true := by
        simp only [decide_eq_true_eq]; omega
      simp [RingQueue.size, filledQueue, hmod, hfull]
      omega

/-- One successful push onto a below-capacity queue appends the element to
the pushed prefix and returns the new occupancy. -/
theorem push_filled_step {T : Type} [Inhabited T] (capacity : Nat)
    (policy : Int) (pushed : List T) (x : T)
    (h : pushed.length < capacity) :
    (filledQueue T capacity policy pushed).push x =
      some (filledQueue T capacity policy (pushed ++ [x]),
        (pushed.length : Int) + 1, none) := by
  have hlen : (pushed ++ List.replicate (capacity - pushed.length)
      (default : T)).length = capacity := by simp; omega
  have hmod : pushed.length % capacity = pushed.length := Nat.mod_eq_of_lt h
  have hfull : decide (0 < capacity ∧ pushed.length = capacity) = false := by
    simp only [decide_eq_false_iff_not]; omega
  have hdata : (pushed ++ List.replicate (capacity - pushed.length)
        (default : T)).set pushed.length x =
      (pushed ++ [x]) ++ List.replicate (capacity - (pushed.length + 1))
        (default : T) := by
    have hrep : List.replicate (capacity - pushed.length) (default : T) =
        default :: List.replicate (capacity - (pushed.length + 1)) default := by
      rw [show capacity - pushed.length =
        (capacity - (pushed.length + 1)) + 1 by omega, List.replicate_succ]
    rw [hrep, List.set_append, if_neg (lt_irrefl _), Nat.sub_self,
      List.set_cons_zero, List.append_assoc, List.singleton_append]
  have hiff : ((pushed.length + 1) % capacity = 0) ↔
      (0 < capacity ∧ pushed.length + 1 = capacity) := by
    constructor
    · intro hz
      rcases Nat.lt_or_ge (pushed.length + 1) capacity with hlt2 | hge2
      · rw [Nat.mod_eq_of_lt hlt2] at hz; omega
      · exact ⟨by omega, le_antisymm h hge2⟩
    · rintro ⟨-, hEq⟩
      rw [hEq, Nat.mod_self]
  have hcond : (filledQueue T capacity policy pushed).end_ <
      (filledQueue T capacity policy pushed).data.length := by
    simp only [filledQueue]
    rw [hmod, hlen]
    exact h
  have hq : ({ filledQueue T capacity policy pushed with
      data := (filledQueue T capacity policy pushed).data.set
        (filledQueue T capacity policy pushed).end_ x,
      end_ := ((filledQueue T capacity policy pushed).end_ + 1) %
        (filledQueue T capacity policy pushed).data.length,
      isFull := decide (((filledQueue T capacity policy pushed).end_ + 1) %
        (filledQueue T capacity policy pushed).data.length =
        (filledQueue T capacity policy pushed).start) } : RingQueue T) =
      filledQueue T capacity policy (pushed ++ [x]) := by
    simp only [filledQueue, hmod, hlen]
    simp only [List.length_append, List.length_cons, List.length_nil,
      RingQueue.mk.injEq]
    refine ⟨?_, ?_⟩
    · rw [hdata]
    · rw [decide_eq_decide]
      simpa using hiff
  unfold RingQueue.push
  rw [if_neg (by simp [filledQueue]),
    if_neg (by simp [filledQueue, hfull]),
    if_neg (by simp [filledQueue, hfull]),
    dif_pos hcond]
  simp only [hq, filledQueue_size capacity policy (pushed ++ [x])
    (by simp; omega)]
  simp

/-- Pushing any list of elements onto a partially filled fresh queue, with
room for all of them, succeeds and appends them to the pushed prefix. -/
theorem pushList_filled {T : Type} [Inhabited T] (capacity : Nat)
    (policy : Int) (xs : List T) :
    ∀ pushed : List T, pushed.length + xs.length ≤ capacity →
      pushList (filledQueue T capacity policy pushed) xs =
        some (filledQueue T capacity policy (pushed ++ xs)) := by
  induction xs with
  | nil => intro pushed h; simp [pushList]
  | cons x xs ih =>
    intro pushed h
    have hlt : pushed.length < capacity := by
      simp only [List.length_cons] at h; omega
    rw [pushList, push_filled_step capacity policy pushed x hlt]
    have hrest := ih (pushed ++ [x]) (by
      simp only [List.length_append, List.length_cons, List.length_nil] at h ⊢
      omega)
    rw [List.append_assoc, List.singleton_append] at hrest
    exact hrest

/-- Before any pop, the draining characterization coincides with the filled
one. -/
theorem drainingQueue_zero {T : Type} [Inhabited T] (capacity : Nat)
    (policy : Int) (pushed : List T) :
    drainingQueue T capacity policy pushed 0 =
      filledQueue T capacity policy pushed := by
  have h1 : (0 : Nat) % capacity = 0 := Nat.zero_mod _
  have h2 : decide (0 < capacity ∧ pushed.length = capacity ∧ (0 : Nat) = 0) =
      decide (0 < capacity ∧ pushed.length = capacity) := by
    rw [decide_eq_decide]; tauto
  unfold drainingQueue filledQueue
  rw [h1, h2]

/-- One pop from the draining state with `j` elements already popped (and at
least one left) returns the j-th pushed element and moves to state `j+1`. -/
theorem pop_draining_step {T : Type} [Inhabited T] (capacity : Nat)
    (policy : Int) (xs : List T) (j : Nat) (hj : j < xs.length)
    (hn : xs.length ≤ capacity) :
    (drainingQueue T capacity policy xs j).pop =
      some (xs.get ⟨j, hj⟩, drainingQueue T capacity policy xs (j + 1),
        (drainingQueue T capacity policy xs (j + 1)).size, none) := by
  have hjc : j < capacity := by omega
  have hmodj : j % capacity = j := Nat.mod_eq_of_lt hjc
  have hlen : (xs ++ List.replicate (capacity - xs.length)
      (default : T)).length = capacity := by simp; omega
  have hne : ¬((drainingQueue T capacity policy xs j).isFull = false ∧
      (drainingQueue T capacity policy xs j).start =
      (drainingQueue T capacity policy xs j).end_) := by
    simp only [drainingQueue]
    rintro ⟨h1, h2⟩
    rw [hmodj] at h2
    rcases Nat.lt_or_ge xs.length capacity with hlt | hge
    · rw [Nat.mod_eq_of_lt hlt] at h2; omega
    · have hk : xs.length = capacity := le_antisymm hn hge
      rw [hk, Nat.mod_self] at h2
      simp only [decide_eq_false_iff_not] at h1
      exact h1 ⟨by omega, hk, by omega⟩
  have hcond : (drainingQueue T capacity policy xs j).start <
      (drainingQueue T capacity policy xs j).data.length := by
    simp only [drainingQueue]
    rw [hmodj, hlen]
    exact hjc
  have hval : (drainingQueue T capacity policy xs j).data.get
      ⟨(drainingQueue T capacity policy xs j).start, hcond⟩ =
      xs.get ⟨j, hj⟩ := by
    simp only [drainingQueue, List.get_eq_getElem]
    simp only [hmodj]
    exact List.getElem_append_left hj
  have hq : ({ drainingQueue T capacity policy xs j with
      start := ((drainingQueue T capacity policy xs j).start + 1) %
        (drainingQueue T capacity policy xs j).data.length,
      isFull := false } : RingQueue T) =
      drainingQueue T capacity policy xs (j + 1) := by
    have h2 : decide (0 < capacity ∧ xs.length = capacity ∧ j + 1 = 0) =
        false := by
      simp only [decide_eq_false_iff_not]; omega
    unfold drainingQueue
    dsimp only
    rw [hmodj, hlen, h2]
  unfold RingQueue.pop
  rw [if_neg (by simp [drainingQueue]), if_neg hne, dif_pos hcond]
  simp only [hval, hq]

/-- Popping all remaining elements of the draining state returns them in
push order. -/
theorem popList_draining {T : Type} [Inhabited T] (capacity : Nat)
    (policy : Int) (xs : List T) (hn : xs.length ≤ capacity) :
    ∀ m j : Nat, j + m = xs.length →
      popList (drainingQueue T capacity policy xs j) m =
        some (xs.drop j, drainingQueue T capacity policy xs xs.length) := by
  intro m
  induction m with
  | zero =>
    intro j hjm
    have hj : j = xs.length := by omega
    subst hj
    simp [popList, List.drop_length]
  | succ m ih =>
    intro j hjm
    have hj : j < xs.length := by omega
    have hpop := pop_draining_step capacity policy xs j hj hn
    rw [popList, hpop]
    simp only [ih (j + 1) (by omega), Option.map_some']
    rw [List.drop_eq_getElem_cons hj]
    simp [List.get_eq_getElem]

/-- C4: on a fresh queue of any capacity and any overflow policy, pushing
any sequence of at most capacity-many elements succeeds push by push, Size
then equals the number of elements pushed, and popping that many times
returns exactly the pushed elements in push (FIFO) order with no errors. -/
theorem fifo_pushes_within_capacity {T : Type} [Inhabited T]
    (capacity : Nat) (policy : Int) (xs : List T)
    (h : xs.length ≤ capacity) :
    pushList ((NewRingQueue T capacity).setWhenFull policy) xs =
      some (filledQueue T capacity policy xs) ∧
    (filledQueue T capacity policy xs).size = (xs.length : Int) ∧
    popList (filledQueue T capacity policy xs) xs.length =
      some (xs, drainingQueue T capacity policy xs xs.length) := by
  have hnew : (NewRingQueue T capacity).setWhenFull policy =
      filledQueue T capacity policy [] := by
    have h1 : ([] : List T) ++
        List.replicate (capacity - ([] : List T).length) (default : T) =
        List.replicate capacity default := by simp
    have h2 : decide (0 < capacity ∧ ([] : List T).length = capacity) =
        false := by
      simp only [decide_eq_false_iff_not, List.length_nil]
      omega
    have h3 : ([] : List T).length % capacity = 0 := by simp
    unfold NewRingQueue RingQueue.setWhenFull filledQueue
    dsimp only
    rw [h1, h2, h3]
  refine ⟨?_, filledQueue_size capacity policy xs h, ?_⟩
  · rw [hnew]
    have hp := pushList_filled capacity policy xs [] (by simpa using h)
    simpa using hp
  · have hp := popList_draining capacity policy xs h xs.length 0 (by omega)
    rw [drainingQueue_zero] at hp
    simpa using hp

/-- C4 witness: capacity 3, Fail policy, pushing [10, 20] then popping twice
returns [10, 20] in order. -/
theorem fifo_pushes_within_capacity_witness :
    pushList ((NewRingQueue Int 3).setWhenFull WhenFullError) [10, 20] =
      some (filledQueue Int 3 WhenFullError [10, 20]) ∧
    (filledQueue Int 3 WhenFullError [10, 20]).size = 2 ∧
    popList (filledQueue Int 3 WhenFullError [10, 20]) 2 =
      some ([10, 20], drainingQueue Int 3 WhenFullError [10, 20] 2) :=
  fifo_pushes_within_capacity 3 WhenFullError ([10, 20] : List Int)
    (by decide)

end RoundRobin
